import Mathlib

/-!
# Verification of the nl2sql repair / selection / orchestration control flow

Shallow embedding of the control- and failure-logic of the GoogleCloudPlatform
nl2sql repository, together with theorems settling the specification claims.

Conventions used throughout:
* Python exceptions are modelled with `Except String` (the string is the
  message) or, for loops whose only failure is nontermination, with `Option`.
* The LLM is an opaque oracle, passed in as a function argument.
* The database execution capability is an opaque oracle
  `Nat → String → Option String`: argument 1 is the index of the execution
  attempt (so that databases whose answers change over time are covered),
  argument 2 the SQL text; `none` models a successful execution and
  `some msg` models a `DatabaseError` whose first error line is `msg`.
-/

namespace NL2SQL

/-! ## Execution-guided repair loop (`nl2sql/tasks/eval_fix/core.py`)

`CoreEvalFix.__call__` initialises `trials = [query]`, then runs a nested
function `evaluate` under `@retry(stop=stop_after_attempt(self.num_retries))`
(tenacity).  Each call of `evaluate` executes `trials[-1]`; on success it
returns that SQL, on `DatabaseError` it runs one LLM repair round, appends the
post-processed new candidate to `trials`, records an intermediate step keyed
by the trial id, and raises to make tenacity retry.  Tenacity always performs
the first call and, after a failed call, re-raises (`RetryError`) once the
number of calls made is at least `num_retries`; so the number of calls of
`evaluate` is `max num_retries 1`.  The caller wraps `evaluate()` in
`try/except Exception` and on any exception uses `trials[-1]` as the output,
so `__call__` never raises. -/

/-- State of one `CoreEvalFix.__call__` invocation: the trial history, the
trial ids of the recorded intermediate steps, and instrumentation counters
for the database execution attempts and the repair LLM rounds entered. -/
structure EvalFixState where
  trials : List String
  stepTrialIds : List Nat
  execCalls : Nat
  llmCalls : Nat
deriving DecidableEq, Repr

/-- Outcome of one call of the nested `evaluate` function: either the SQL
that executed successfully, or the updated state after a failed attempt. -/
inductive EvalAttempt where
  | evalSuccess (sql : String) (st : EvalFixState)
  | evalFailed (st : EvalFixState)
deriving DecidableEq, Repr

/-- One call of the nested `evaluate` function of `CoreEvalFix.__call__`
(`eval_fix/core.py`).  `execDb` is the database oracle (see module comment);
`fixLlm (sql, msg)` is the collapsed prompt-render / LLM-generate / parse /
post-process repair round, returning the new candidate query, with `none`
modelling an exception raised inside that round (missing template, empty LLM
response, parse failure) — in that case nothing is appended and tenacity
still counts the attempt.  `llmCalls` counts repair rounds entered. -/
def evaluateOnce (execDb : Nat → String → Option String)
    (fixLlm : String → String → Option String) (st : EvalFixState) :
    EvalAttempt :=
  let sql := st.trials.getLastD ""
  match execDb st.execCalls sql with
  | none => .evalSuccess sql { st with execCalls := st.execCalls + 1 }
  | some msg =>
    let st1 : EvalFixState := { st with execCalls := st.execCalls + 1 }
    match fixLlm sql msg with
    | some newQuery =>
        .evalFailed { st1 with
          trials := st1.trials ++ [newQuery]
          stepTrialIds := st1.stepTrialIds ++ [st1.trials.length]
          llmCalls := st1.llmCalls + 1 }
    | none => .evalFailed { st1 with llmCalls := st1.llmCalls + 1 }

/-- The tenacity retry loop around `evaluate`.  The `Nat` argument is the
number of retries still allowed after the present attempt; the entry point
uses `numRetries - 1`, which matches tenacity's behaviour of always making
the first call and stopping once the attempt count reaches `num_retries`.
Returns `(some sql, st)` on a successful evaluation and `(none, st)` when the
budget is exhausted (tenacity's `RetryError`). -/
def evalFixLoop (execDb : Nat → String → Option String)
    (fixLlm : String → String → Option String) :
    Nat → EvalFixState → Option String × EvalFixState
  | 0, st =>
    match evaluateOnce execDb fixLlm st with
    | .evalSuccess sql st1 => (some sql, st1)
    | .evalFailed st1 => (none, st1)
  | remRetries + 1, st =>
    match evaluateOnce execDb fixLlm st with
    | .evalSuccess sql st1 => (some sql, st1)
    | .evalFailed st1 => evalFixLoop execDb fixLlm remRetries st1

/-- Result record of `CoreEvalFix.__call__` (`CoreEvalFixResult`): the
original query, the final (modified) query, and the trial ids of the
recorded intermediate steps. -/
structure CoreEvalFixOutcome where
  originalQuery : String
  modifiedQuery : String
  stepTrialIds : List Nat
deriving DecidableEq, Repr

/-- `CoreEvalFix.__call__` (`eval_fix/core.py` lines 145–270).  The outer
`try/except Exception` turns budget exhaustion (and any other exception from
the loop) into `output = trials[-1]`, so the call is total: it always returns
an outcome and never raises to the caller.  The second component is the final
internal state (trial history and counters), exposed for specification. -/
def coreEvalFixCall (execDb : Nat → String → Option String)
    (fixLlm : String → String → Option String)
    (numRetries : Nat) (query : String) :
    CoreEvalFixOutcome × EvalFixState :=
  let st0 : EvalFixState :=
    { trials := [query], stepTrialIds := [], execCalls := 0, llmCalls := 0 }
  let r := evalFixLoop execDb fixLlm (numRetries - 1) st0
  let output :=
    match r.1 with
    | some sql => sql
    | none => r.2.trials.getLastD ""
  ({ originalQuery := query, modifiedQuery := output,
     stepTrialIds := r.2.stepTrialIds }, r.2)

/-- A database oracle that fails every execution attempt. -/
def alwaysFailExec : Nat → String → Option String :=
  fun _ _ => some "Error: table not found"

/-- A repair oracle that always produces a new candidate query. -/
def appendFix : String → String → Option String :=
  fun sql _ => some (sql ++ " FIXED")

theorem evalFixLoop_none_of_allFail (execDb : Nat → String → Option String)
    (fixLlm : String → String → Option String)
    (hfail : ∀ i q, (execDb i q).isSome) :
    ∀ rem st, (evalFixLoop execDb fixLlm rem st).1 = none := by
  intro rem
  induction rem with
  | zero =>
    intro st
    unfold evalFixLoop evaluateOnce
    have h := hfail st.execCalls (st.trials.getLastD "")
    cases hx : execDb st.execCalls (st.trials.getLastD "") with
    | none => rw [hx] at h; simp [Option.isSome] at h
    | some msg => simp only [hx]; cases fixLlm (st.trials.getLastD "") msg <;> simp
  | succ n ih =>
    intro st
    unfold evalFixLoop evaluateOnce
    have h := hfail st.execCalls (st.trials.getLastD "")
    cases hx : execDb st.execCalls (st.trials.getLastD "") with
    | none => rw [hx] at h; simp [Option.isSome] at h
    | some msg =>
      simp only [hx]
      cases fixLlm (st.trials.getLastD "") msg <;> simp [ih]

/-- C1: if every execution attempt fails until the retry budget is exhausted,
`CoreEvalFix.__call__` returns (it never raises — the model is a total
function, mirroring the `try/except Exception` at the call site) an outcome
whose final (modified) query is the last entry of the trial history; in
particular with `num_retries = 2` and an always-failing query the call
returns 3 trials and final query `trials[2]`. -/
theorem c1_evalfix_exhaustion_returns_last_trial
    (execDb : Nat → String → Option String)
    (fixLlm : String → String → Option String)
    (numRetries : Nat) (query : String)
    (hfail : ∀ i q, (execDb i q).isSome) :
    (coreEvalFixCall execDb fixLlm numRetries query).1.modifiedQuery =
      (coreEvalFixCall execDb fixLlm numRetries query).2.trials.getLastD "" ∧
    (coreEvalFixCall alwaysFailExec appendFix 2 "SELECT 1").2.trials.length = 3 ∧
    (coreEvalFixCall alwaysFailExec appendFix 2 "SELECT 1").1.modifiedQuery =
      (coreEvalFixCall alwaysFailExec appendFix 2 "SELECT 1").2.trials.getD 2 "" := by
  refine ⟨?_, by decide, by decide⟩
  simp only [coreEvalFixCall]
  rw [evalFixLoop_none_of_allFail execDb fixLlm hfail]

/-- Witness for C1 at a concrete input. -/
theorem c1_evalfix_exhaustion_returns_last_trial_witness :
    (coreEvalFixCall alwaysFailExec appendFix 2 "SELECT 1").1.modifiedQuery =
      (coreEvalFixCall alwaysFailExec appendFix 2 "SELECT 1").2.trials.getLastD "" :=
  (c1_evalfix_exhaustion_returns_last_trial alwaysFailExec appendFix 2 "SELECT 1"
    (fun _ _ => by simp [alwaysFailExec])).1

/-- The state carried out of one `evaluate` call, whether it succeeded or
failed. -/
def attemptState : EvalAttempt → EvalFixState
  | .evalSuccess _ st => st
  | .evalFailed st => st

/-- The states of the repair loop after each `evaluate` call, in order.  The
`Nat` argument is the retries still allowed after the present attempt, as in
`evalFixLoop`; the trace stops early when an evaluation succeeds. -/
def evalFixTrace (execDb : Nat → String → Option String)
    (fixLlm : String → String → Option String) :
    Nat → EvalFixState → List EvalFixState
  | 0, st => [attemptState (evaluateOnce execDb fixLlm st)]
  | rem + 1, st =>
    match evaluateOnce execDb fixLlm st with
    | .evalSuccess _ st1 => [st1]
    | .evalFailed st1 => st1 :: evalFixTrace execDb fixLlm rem st1

/-- The state before any attempt followed by the state after each attempt. -/
def evalFixStates (execDb : Nat → String → Option String)
    (fixLlm : String → String → Option String)
    (rem : Nat) (st : EvalFixState) : List EvalFixState :=
  st :: evalFixTrace execDb fixLlm rem st

/-- The initial state of `CoreEvalFix.__call__`: `trials = [query]`. -/
def evalFixInit (query : String) : EvalFixState :=
  { trials := [query], stepTrialIds := [], execCalls := 0, llmCalls := 0 }

/-- The per-round states of one `CoreEvalFix.__call__` invocation. -/
def evalFixStatesOfCall (execDb : Nat → String → Option String)
    (fixLlm : String → String → Option String)
    (numRetries : Nat) (query : String) : List EvalFixState :=
  evalFixStates execDb fixLlm (numRetries - 1) (evalFixInit query)

theorem evaluateOnce_spec (execDb : Nat → String → Option String)
    (fixLlm : String → String → Option String) (st : EvalFixState) :
    evaluateOnce execDb fixLlm st =
        .evalSuccess (st.trials.getLastD "") { st with execCalls := st.execCalls + 1 } ∨
    (∃ q, evaluateOnce execDb fixLlm st =
        .evalFailed { st with
          trials := st.trials ++ [q]
          stepTrialIds := st.stepTrialIds ++ [st.trials.length]
          execCalls := st.execCalls + 1
          llmCalls := st.llmCalls + 1 }) ∨
    evaluateOnce execDb fixLlm st =
        .evalFailed { st with
          execCalls := st.execCalls + 1
          llmCalls := st.llmCalls + 1 } := by
  rcases hx : execDb st.execCalls (st.trials.getLastD "") with _ | msg
  · exact Or.inl (by simp only [evaluateOnce]; rw [hx])
  · rcases hf : fixLlm (st.trials.getLastD "") msg with _ | q
    · exact Or.inr (Or.inr (by simp only [evaluateOnce, hx, hf]))
    · exact Or.inr (Or.inl ⟨q, by simp only [evaluateOnce, hx, hf]⟩)

theorem evaluateOnce_allFail (execDb : Nat → String → Option String)
    (fixLlm : String → String → Option String)
    (hfail : ∀ i q, (execDb i q).isSome)
    (hfix : ∀ q m, (fixLlm q m).isSome) (st : EvalFixState) :
    ∃ q, evaluateOnce execDb fixLlm st =
      .evalFailed { st with
        trials := st.trials ++ [q]
        stepTrialIds := st.stepTrialIds ++ [st.trials.length]
        execCalls := st.execCalls + 1
        llmCalls := st.llmCalls + 1 } := by
  have h1 := hfail st.execCalls (st.trials.getLastD "")
  rcases hx : execDb st.execCalls (st.trials.getLastD "") with _ | msg
  · rw [hx] at h1; simp at h1
  · have h2 := hfix (st.trials.getLastD "") msg
    rcases hf : fixLlm (st.trials.getLastD "") msg with _ | q
    · rw [hf] at h2; simp at h2
    · exact ⟨q, by simp only [evaluateOnce, hx, hf]⟩

theorem attemptState_trials_append (execDb : Nat → String → Option String)
    (fixLlm : String → String → Option String) (st : EvalFixState) :
    ∃ t, (attemptState (evaluateOnce execDb fixLlm st)).trials = st.trials ++ t := by
  rcases evaluateOnce_spec execDb fixLlm st with h | ⟨q, h⟩ | h
  · exact ⟨[], by rw [h]; simp [attemptState]⟩
  · exact ⟨[q], by rw [h]; simp [attemptState]⟩
  · exact ⟨[], by rw [h]; simp [attemptState]⟩

theorem attemptState_trials_len_le (execDb : Nat → String → Option String)
    (fixLlm : String → String → Option String) (st : EvalFixState) :
    (attemptState (evaluateOnce execDb fixLlm st)).trials.length ≤
      st.trials.length + 1 := by
  rcases evaluateOnce_spec execDb fixLlm st with h | ⟨q, h⟩ | h <;>
    rw [h] <;> simp [attemptState]

theorem attemptState_execCalls (execDb : Nat → String → Option String)
    (fixLlm : String → String → Option String) (st : EvalFixState) :
    (attemptState (evaluateOnce execDb fixLlm st)).execCalls = st.execCalls + 1 := by
  rcases evaluateOnce_spec execDb fixLlm st with h | ⟨q, h⟩ | h <;>
    rw [h] <;> simp [attemptState]

theorem attemptState_llmCalls (execDb : Nat → String → Option String)
    (fixLlm : String → String → Option String) (st : EvalFixState) :
    (attemptState (evaluateOnce execDb fixLlm st)).llmCalls ≤ st.llmCalls + 1 := by
  rcases evaluateOnce_spec execDb fixLlm st with h | ⟨q, h⟩ | h <;>
    rw [h] <;> simp [attemptState]

theorem failedState_trials_append (execDb : Nat → String → Option String)
    (fixLlm : String → String → Option String) (st st1 : EvalFixState)
    (hs : evaluateOnce execDb fixLlm st = .evalFailed st1) :
    ∃ t, st1.trials = st.trials ++ t := by
  obtain ⟨t, ht⟩ := attemptState_trials_append execDb fixLlm st
  rw [hs] at ht
  exact ⟨t, ht⟩

theorem successState_trials_append (execDb : Nat → String → Option String)
    (fixLlm : String → String → Option String) (st st1 : EvalFixState)
    (sql : String)
    (hs : evaluateOnce execDb fixLlm st = .evalSuccess sql st1) :
    ∃ t, st1.trials = st.trials ++ t := by
  obtain ⟨t, ht⟩ := attemptState_trials_append execDb fixLlm st
  rw [hs] at ht
  exact ⟨t, ht⟩

theorem evalFixStates_trials_append (execDb : Nat → String → Option String)
    (fixLlm : String → String → Option String) :
    ∀ rem st, ∀ b ∈ evalFixStates execDb fixLlm rem st,
      ∃ t, b.trials = st.trials ++ t := by
  intro rem
  induction rem with
  | zero =>
    intro st b hb
    simp only [evalFixStates, evalFixTrace, List.mem_cons, List.mem_singleton,
      List.not_mem_nil, or_false] at hb
    rcases hb with rfl | rfl
    · exact ⟨[], by simp⟩
    · exact attemptState_trials_append execDb fixLlm st
  | succ n ih =>
    intro st b hb
    simp only [evalFixStates, List.mem_cons] at hb
    rcases hb with rfl | h
    · exact ⟨[], by simp⟩
    · rcases hs : evaluateOnce execDb fixLlm st with ⟨sql, st1⟩ | ⟨st1⟩
      · simp only [evalFixTrace, hs, List.mem_singleton] at h
        subst h
        exact successState_trials_append execDb fixLlm st b sql hs
      · simp only [evalFixTrace, hs, List.mem_cons] at h
        obtain ⟨t0, ht0⟩ := failedState_trials_append execDb fixLlm st st1 hs
        rcases h with rfl | h
        · exact ⟨t0, ht0⟩
        · obtain ⟨t1, ht1⟩ := ih st1 b (by
            simp only [evalFixStates, List.mem_cons]
            exact Or.inr h)
          exact ⟨t0 ++ t1, by rw [ht1, ht0, List.append_assoc]⟩

theorem evalFixStates_pairwise (execDb : Nat → String → Option String)
    (fixLlm : String → String → Option String) :
    ∀ rem st, (evalFixStates execDb fixLlm rem st).Pairwise
      (fun a b => ∃ t, b.trials = a.trials ++ t) := by
  intro rem
  induction rem with
  | zero =>
    intro st
    refine List.pairwise_cons.mpr ⟨?_, List.pairwise_singleton _ _⟩
    intro b hb
    simp only [evalFixTrace, List.mem_singleton] at hb
    subst hb
    exact attemptState_trials_append execDb fixLlm st
  | succ n ih =>
    intro st
    refine List.pairwise_cons.mpr ⟨?_, ?_⟩
    · intro b hb
      exact evalFixStates_trials_append execDb fixLlm (n + 1) st b
        (by simp only [evalFixStates, List.mem_cons]; exact Or.inr hb)
    · rcases hs : evaluateOnce execDb fixLlm st with ⟨sql, st1⟩ | ⟨st1⟩
      · simp only [evalFixTrace, hs]
        exact List.pairwise_singleton _ _
      · simp only [evalFixTrace, hs]
        exact ih st1

theorem evalFixStates_length_le (execDb : Nat → String → Option String)
    (fixLlm : String → String → Option String) :
    ∀ rem st, (evalFixStates execDb fixLlm rem st).length ≤ rem + 2 := by
  intro rem
  induction rem with
  | zero => intro st; simp [evalFixStates, evalFixTrace]
  | succ n ih =>
    intro st
    unfold evalFixStates evalFixTrace
    rcases evaluateOnce execDb fixLlm st with ⟨sql, st1⟩ | ⟨st1⟩
    · simp
    · have := ih st1
      unfold evalFixStates at this
      simp only [List.length_cons] at this ⊢
      omega

theorem evalFixStates_getD_trials_le (execDb : Nat → String → Option String)
    (fixLlm : String → String → Option String) (d : EvalFixState) :
    ∀ rem st k, k < (evalFixStates execDb fixLlm rem st).length →
      ((evalFixStates execDb fixLlm rem st).getD k d).trials.length ≤
        st.trials.length + k := by
  intro rem
  induction rem with
  | zero =>
    intro st k hk
    match k with
    | 0 => simp [evalFixStates]
    | 1 =>
      have h := attemptState_trials_len_le execDb fixLlm st
      simpa [evalFixStates, evalFixTrace] using h
    | n + 2 => simp [evalFixStates, evalFixTrace] at hk
  | succ n ih =>
    intro st k hk
    match k with
    | 0 => simp [evalFixStates]
    | k + 1 =>
      rcases hs : evaluateOnce execDb fixLlm st with ⟨sql, st1⟩ | ⟨st1⟩
      · have hk2 : k + 1 < 2 := by
          simpa [evalFixStates, evalFixTrace, hs] using hk
        have hk0 : k = 0 := by omega
        subst hk0
        have hst1 : (evalFixStates execDb fixLlm (n + 1) st).getD 1 d = st1 := by
          simp [evalFixStates, evalFixTrace, hs]
        rw [hst1]
        have h := attemptState_trials_len_le execDb fixLlm st
        rw [hs] at h
        simpa [attemptState] using h
      · have hrw : (evalFixStates execDb fixLlm (n + 1) st).getD (k + 1) d =
            (evalFixStates execDb fixLlm n st1).getD k d := by
          simp [evalFixStates, evalFixTrace, hs]
        rw [hrw]
        have hk1 : k < (evalFixStates execDb fixLlm n st1).length := by
          have h2 := hk
          simp only [evalFixStates, evalFixTrace, hs, List.length_cons] at h2 ⊢
          omega
        have hlen1 : st1.trials.length ≤ st.trials.length + 1 := by
          have h := attemptState_trials_len_le execDb fixLlm st
          rw [hs] at h
          simpa [attemptState] using h
        have := ih st1 k hk1
        omega

theorem evalFixTrace_length_allFail (execDb : Nat → String → Option String)
    (fixLlm : String → String → Option String)
    (hfail : ∀ i q, (execDb i q).isSome)
    (hfix : ∀ q m, (fixLlm q m).isSome) :
    ∀ rem st, (evalFixTrace execDb fixLlm rem st).length = rem + 1 := by
  intro rem
  induction rem with
  | zero => intro st; simp [evalFixTrace]
  | succ n ih =>
    intro st
    obtain ⟨q, hq⟩ := evaluateOnce_allFail execDb fixLlm hfail hfix st
    simp [evalFixTrace, hq, ih]

theorem evalFixStates_getD_trials_eq_allFail (execDb : Nat → String → Option String)
    (fixLlm : String → String → Option String) (d : EvalFixState)
    (hfail : ∀ i q, (execDb i q).isSome)
    (hfix : ∀ q m, (fixLlm q m).isSome) :
    ∀ rem st k, k < (evalFixStates execDb fixLlm rem st).length →
      ((evalFixStates execDb fixLlm rem st).getD k d).trials.length =
        st.trials.length + k := by
  intro rem
  induction rem with
  | zero =>
    intro st k hk
    obtain ⟨q, hq⟩ := evaluateOnce_allFail execDb fixLlm hfail hfix st
    match k with
    | 0 => simp [evalFixStates]
    | 1 => simp [evalFixStates, evalFixTrace, hq, attemptState]
    | n + 2 => simp [evalFixStates, evalFixTrace] at hk
  | succ n ih =>
    intro st k hk
    obtain ⟨q, hq⟩ := evaluateOnce_allFail execDb fixLlm hfail hfix st
    match k with
    | 0 => simp [evalFixStates]
    | k + 1 =>
      have hrw : (evalFixStates execDb fixLlm (n + 1) st).getD (k + 1) d =
          (evalFixStates execDb fixLlm n
            { st with
              trials := st.trials ++ [q]
              stepTrialIds := st.stepTrialIds ++ [st.trials.length]
              execCalls := st.execCalls + 1
              llmCalls := st.llmCalls + 1 }).getD k d := by
        simp [evalFixStates, evalFixTrace, hq]
      rw [hrw]
      have hk1 : k < (evalFixStates execDb fixLlm n
          { st with
            trials := st.trials ++ [q]
            stepTrialIds := st.stepTrialIds ++ [st.trials.length]
            execCalls := st.execCalls + 1
            llmCalls := st.llmCalls + 1 }).length := by
        have h2 := hk
        simp only [evalFixStates, evalFixTrace, hq, List.length_cons] at h2 ⊢
        omega
      have := ih _ k hk1
      simp only [List.length_append, List.length_singleton] at this
      omega

theorem listGetD_eq_get {α : Type} (l : List α) (n : Nat) (d : α)
    (h : n < l.length) : l.getD n d = l.get ⟨n, h⟩ := by
  simp [List.getD, List.getElem?_eq_getElem h]

/-- C2 (amended): throughout a repair-loop invocation the trial history starts
as `[query]`, is only ever appended to (state `j ≥ i` carries state `i`'s
trials as a prefix, and every already-recorded trial is unchanged), and — for
`num_retries ≥ 1` — its length never exceeds the retry budget plus one and,
when every execution attempt fails and every repair round produces a
candidate, the length after `k` failed attempts is exactly
`min (k+1) (num_retries+1)`.  (At `num_retries = 0` tenacity still performs
one attempt, so the history can reach length 2; see the counterexample.) -/
theorem c2_evalfix_trial_history_invariants
    (execDb : Nat → String → Option String)
    (fixLlm : String → String → Option String)
    (numRetries : Nat) (query : String) (d : EvalFixState) :
    ((evalFixStatesOfCall execDb fixLlm numRetries query).getD 0 d =
        evalFixInit query ∧ (evalFixInit query).trials = [query]) ∧
    (∀ i j, i ≤ j →
      ∀ hj : j < (evalFixStatesOfCall execDb fixLlm numRetries query).length,
      (∃ t, ((evalFixStatesOfCall execDb fixLlm numRetries query).getD j d).trials =
          ((evalFixStatesOfCall execDb fixLlm numRetries query).getD i d).trials ++ t) ∧
      (∀ idx, idx <
          ((evalFixStatesOfCall execDb fixLlm numRetries query).getD i d).trials.length →
        ((evalFixStatesOfCall execDb fixLlm numRetries query).getD j d).trials.getD idx "" =
          ((evalFixStatesOfCall execDb fixLlm numRetries query).getD i d).trials.getD idx "")) ∧
    (1 ≤ numRetries →
      (∀ k, k < (evalFixStatesOfCall execDb fixLlm numRetries query).length →
        ((evalFixStatesOfCall execDb fixLlm numRetries query).getD k d).trials.length ≤
          numRetries + 1) ∧
      ((∀ i q1, (execDb i q1).isSome) → (∀ q1 m, (fixLlm q1 m).isSome) →
        (evalFixStatesOfCall execDb fixLlm numRetries query).length = numRetries + 1 ∧
        (∀ k, k < (evalFixStatesOfCall execDb fixLlm numRetries query).length →
          ((evalFixStatesOfCall execDb fixLlm numRetries query).getD k d).trials.length =
            min (k + 1) (numRetries + 1)))) := by
  refine ⟨⟨by simp [evalFixStatesOfCall, evalFixStates], by simp [evalFixInit]⟩, ?_, ?_⟩
  · intro i j hij hj
    have hi : i < (evalFixStatesOfCall execDb fixLlm numRetries query).length := by
      omega
    have hpre : ∃ t,
        ((evalFixStatesOfCall execDb fixLlm numRetries query).getD j d).trials =
        ((evalFixStatesOfCall execDb fixLlm numRetries query).getD i d).trials ++ t := by
      rcases Nat.lt_or_ge i j with hlt | hge
      · have hp := evalFixStates_pairwise execDb fixLlm (numRetries - 1)
          (evalFixInit query)
        rw [List.pairwise_iff_get] at hp
        have := hp ⟨i, hi⟩ ⟨j, hj⟩ hlt
        rw [listGetD_eq_get _ i d hi, listGetD_eq_get _ j d hj]
        exact this
      · have hij2 : i = j := by omega
        subst hij2
        exact ⟨[], by simp⟩
    refine ⟨hpre, ?_⟩
    intro idx hidx
    obtain ⟨t, ht⟩ := hpre
    rw [ht]
    exact List.getD_append _ _ _ _ hidx
  · intro hN
    have hlen := evalFixStates_length_le execDb fixLlm (numRetries - 1)
      (evalFixInit query)
    constructor
    · intro k hk
      have h := evalFixStates_getD_trials_le execDb fixLlm d (numRetries - 1)
        (evalFixInit query) k hk
      have h1 : (evalFixInit query).trials.length = 1 := by simp [evalFixInit]
      have h2 : k < (numRetries - 1) + 2 := by
        exact Nat.lt_of_lt_of_le hk hlen
      simp only [evalFixStatesOfCall] at h ⊢
      omega
    · intro hfail hfix
      have htr := evalFixTrace_length_allFail execDb fixLlm hfail hfix
        (numRetries - 1) (evalFixInit query)
      have hslen : (evalFixStatesOfCall execDb fixLlm numRetries query).length =
          numRetries + 1 := by
        simp only [evalFixStatesOfCall, evalFixStates, List.length_cons, htr]
        omega
      refine ⟨hslen, ?_⟩
      intro k hk
      have h := evalFixStates_getD_trials_eq_allFail execDb fixLlm d hfail hfix
        (numRetries - 1) (evalFixInit query) k hk
      have h1 : (evalFixInit query).trials.length = 1 := by simp [evalFixInit]
      have hk2 : k < numRetries + 1 := by rw [hslen] at hk; exact hk
      simp only [evalFixStatesOfCall] at h ⊢
      omega

/-- Witness for C2 at a concrete input: budget 2, always-failing query. -/
theorem c2_evalfix_trial_history_invariants_witness :
    (evalFixStatesOfCall alwaysFailExec appendFix 2 "SELECT 1").length = 2 + 1 :=
  (((c2_evalfix_trial_history_invariants alwaysFailExec appendFix 2 "SELECT 1"
      (evalFixInit "SELECT 1")).2.2 (by omega)).2 (fun _ _ => rfl)
      (fun _ _ => rfl)).1

/-- C2 counterexample: with `num_retries = 0` and an always-failing query,
one execution attempt is still performed (tenacity always makes the first
call) and the trial history after that one failed attempt has length 2 —
not `min (1+1) (0+1) = 1` — so it exceeds the configured retry budget plus
one. -/
theorem c2_counterexample_budget_zero :
    (coreEvalFixCall alwaysFailExec appendFix 0 "SELECT 1").2.execCalls = 1 ∧
    (coreEvalFixCall alwaysFailExec appendFix 0 "SELECT 1").2.trials.length = 2 ∧
    (coreEvalFixCall alwaysFailExec appendFix 0 "SELECT 1").2.trials.length ≠
      min (1 + 1) (0 + 1) ∧
    ¬((coreEvalFixCall alwaysFailExec appendFix 0 "SELECT 1").2.trials.length ≤
      0 + 1) := by
  decide

theorem evalFixLoop_counters (execDb : Nat → String → Option String)
    (fixLlm : String → String → Option String) :
    ∀ rem st, (evalFixLoop execDb fixLlm rem st).2.execCalls ≤
        st.execCalls + (rem + 1) ∧
      (evalFixLoop execDb fixLlm rem st).2.llmCalls ≤ st.llmCalls + (rem + 1) := by
  intro rem
  induction rem with
  | zero =>
    intro st
    rcases hs : evaluateOnce execDb fixLlm st with ⟨sql, st1⟩ | ⟨st1⟩ <;>
    · have he := attemptState_execCalls execDb fixLlm st
      have hl := attemptState_llmCalls execDb fixLlm st
      rw [hs] at he hl
      simp only [attemptState] at he hl
      simp only [evalFixLoop, hs]
      omega
  | succ n ih =>
    intro st
    rcases hs : evaluateOnce execDb fixLlm st with ⟨sql, st1⟩ | ⟨st1⟩
    · have he := attemptState_execCalls execDb fixLlm st
      have hl := attemptState_llmCalls execDb fixLlm st
      rw [hs] at he hl
      simp only [attemptState] at he hl
      simp only [evalFixLoop, hs]
      omega
    · have he := attemptState_execCalls execDb fixLlm st
      have hl := attemptState_llmCalls execDb fixLlm st
      rw [hs] at he hl
      simp only [attemptState] at he hl
      have hih := ih st1
      simp only [evalFixLoop, hs]
      omega

/-- C3 (amended): one invocation of the repair loop with retry budget `N`
always terminates (the model is a total function) after at most `max N 1`
repair LLM rounds and at most `max N 1` database execution attempts; hence
for `N ≥ 1` at most `N` repair LLM calls and at most `N + 1` execution
attempts, as the claim states.  (At `N = 0` tenacity still performs one
attempt with one repair round; see the counterexample.) -/
theorem c3_evalfix_retry_budget_bounds
    (execDb : Nat → String → Option String)
    (fixLlm : String → String → Option String)
    (numRetries : Nat) (query : String) :
    (coreEvalFixCall execDb fixLlm numRetries query).2.execCalls ≤
      max numRetries 1 ∧
    (coreEvalFixCall execDb fixLlm numRetries query).2.llmCalls ≤
      max numRetries 1 ∧
    (1 ≤ numRetries →
      (coreEvalFixCall execDb fixLlm numRetries query).2.llmCalls ≤ numRetries ∧
      (coreEvalFixCall execDb fixLlm numRetries query).2.execCalls ≤
        numRetries + 1) := by
  have h := evalFixLoop_counters execDb fixLlm (numRetries - 1) (evalFixInit query)
  have h2 : (coreEvalFixCall execDb fixLlm numRetries query).2 =
      (evalFixLoop execDb fixLlm (numRetries - 1) (evalFixInit query)).2 := rfl
  rw [h2]
  have e1 : (evalFixInit query).execCalls = 0 := rfl
  have e2 : (evalFixInit query).llmCalls = 0 := rfl
  rw [e1, e2] at h
  omega

/-- Witness for C3 at a concrete input: budget 2. -/
theorem c3_evalfix_retry_budget_bounds_witness :
    (coreEvalFixCall alwaysFailExec appendFix 2 "SELECT 1").2.llmCalls ≤ 2 ∧
    (coreEvalFixCall alwaysFailExec appendFix 2 "SELECT 1").2.execCalls ≤ 2 + 1 :=
  (c3_evalfix_retry_budget_bounds alwaysFailExec appendFix 2 "SELECT 1").2.2
    (by omega)

/-- C3 counterexample: with `num_retries = 0` and an always-failing query the
call still performs one repair LLM round, exceeding the claimed bound of
`N = 0` repair LLM calls. -/
theorem c3_counterexample_budget_zero :
    (coreEvalFixCall alwaysFailExec appendFix 0 "SELECT 1").2.llmCalls = 1 ∧
    ¬((coreEvalFixCall alwaysFailExec appendFix 0 "SELECT 1").2.llmCalls ≤ 0) := by
  decide

/-! ## SQL generation (`nl2sql/tasks/sql_generation/core.py`)

`CoreSqlGenerator.__call__` prepares one prompt, makes exactly one LLM call,
takes `llm_response.generations[0][0].text.strip()` (raising `ValueError`
when the candidate list is empty), parses it with the configured parser if
one is present (a parse failure raises), applies the post-processor, records
one intermediate step and returns a `CoreSqlGenratorResult` whose
`generated_query` is the post-processor's output (possibly `None`). -/

/-- Result of `CoreSqlGenerator.__call__`: the (nullable) generated query and
the number of intermediate-step records appended. -/
structure CoreSqlGenOutcome where
  generatedQuery : Option String
  stepsRecorded : Nat
deriving DecidableEq, Repr

/-- Python `str.strip()` whitespace characters (ASCII subset). -/
def pySpaceChar (c : Char) : Bool :=
  c = ' ' || c = '\t' || c = '\n' || c = '\r' || c = '\x0b' || c = '\x0c'

/-- Python `str.strip()` on ASCII whitespace. -/
def pyStrip (s : String) : String :=
  String.mk (((s.data.dropWhile pySpaceChar).reverse.dropWhile pySpaceChar).reverse)

/-- `CoreSqlGenerator.__call__` (`sql_generation/core.py` lines 171–238) from
the LLM call onward.  `generations` is `llm_response.generations` (texts
only); `parseResp` is the optional `StructuredOutputParser.parse` (an
`Except` because parse failures raise); `postProcess` is the configured
post-processor, acting on the parsed structure (`Sum.inl`) or, when no
parser is configured, on the raw stripped text (`Sum.inr`), and returning
the nullable query string.  Prompt selection and rendering happen before
this point and are opaque here. -/
def coreSqlGeneratorCall (α : Type)
    (generations : List (List String))
    (parseResp : Option (String → Except String α))
    (postProcess : α ⊕ String → Option String) :
    Except String CoreSqlGenOutcome :=
  match generations.head?.bind List.head? with
  | none => .error "ValueError: Empty / Invalid Response received from LLM"
  | some text =>
    let rawResponse := pyStrip text
    let parsed : Except String (α ⊕ String) :=
      match parseResp with
      | some p => (p rawResponse).map Sum.inl
      | none => .ok (.inr rawResponse)
    match parsed with
    | .error e => .error e
    | .ok pr => .ok { generatedQuery := postProcess pr, stepsRecorded := 1 }

/-- A sample parser that accepts anything. -/
def constUnitParse : String → Except String Unit := fun _ => .ok ()

/-- A sample post-processor returning a null query. -/
def constNonePost : Unit ⊕ String → Option String := fun _ => none

/-- C4 counterexample: with an empty LLM candidate list the call raises
`ValueError` instead of returning a result whose `generated_query` is null —
contradicting the claim that empty output "does not raise an exception". -/
theorem c4_counterexample_empty_llm_output :
    coreSqlGeneratorCall Unit [] (some constUnitParse) constNonePost =
      .error "ValueError: Empty / Invalid Response received from LLM" := rfl

/-- C4 (amended): when the LLM candidate list is empty the call raises
`ValueError`; when the configured parser fails on the stripped raw text the
parse error propagates (the call raises); `generated_query = null` arises
exactly when parsing succeeds and the post-processor returns null, and only
then is the event recorded as an intermediate step and returned without an
exception. -/
theorem c4_sqlgen_empty_or_unparseable (α : Type)
    (generations : List (List String))
    (parseResp : Option (String → Except String α))
    (postProcess : α ⊕ String → Option String) :
    (generations.head?.bind List.head? = none →
      coreSqlGeneratorCall α generations parseResp postProcess =
        .error "ValueError: Empty / Invalid Response received from LLM") ∧
    (∀ text p e, generations.head?.bind List.head? = some text →
      parseResp = some p → p (pyStrip text) = .error e →
      coreSqlGeneratorCall α generations parseResp postProcess = .error e) ∧
    (∀ text p a, generations.head?.bind List.head? = some text →
      parseResp = some p → p (pyStrip text) = .ok a →
      postProcess (.inl a) = none →
      coreSqlGeneratorCall α generations parseResp postProcess =
        .ok { generatedQuery := none, stepsRecorded := 1 }) := by
  refine ⟨?_, ?_, ?_⟩
  · intro h
    simp [coreSqlGeneratorCall, h]
  · intro text p e hhead hp hparse
    simp [coreSqlGeneratorCall, hhead, hp, hparse, Except.map]
  · intro text p a hhead hp hparse hpost
    simp [coreSqlGeneratorCall, hhead, hp, hparse, hpost, Except.map]

/-- Witness for C4 at a concrete input: one candidate, parser accepts, the
post-processor returns null, and the call returns a result with a null query
and one recorded step. -/
theorem c4_sqlgen_empty_or_unparseable_witness :
    coreSqlGeneratorCall Unit [["anything"]] (some constUnitParse) constNonePost =
      .ok { generatedQuery := none, stepsRecorded := 1 } :=
  (c4_sqlgen_empty_or_unparseable Unit [["anything"]] (some constUnitParse)
    constNonePost).2.2 "anything" constUnitParse () rfl rfl rfl rfl

/-! ## Table and column selection
(`nl2sql/tasks/table_selection/core.py`, `nl2sql/tasks/column_selection/core.py`)

`CoreTableSelector.__call__` loops over targets — every descriptor table in
per-table mode (`call_for_each_table`), or the single joined name of the
usable tables in batched mode — making one LLM call per target.  Each raw
response is parsed (unguarded: a parse failure or empty LLM response raises
out of the whole call) and post-processed; a truthy processed response
appends the table name (per-table mode) or replaces the selected list
(batched mode).  Afterwards `set(selected_tables)` is intersected — case
sensitively — with `db.db._usable_tables`.

`CoreColumnSelector.__call__` loops over the descriptor tables, extends the
raw selected-column list with each processed response, then matches the raw
names case-insensitively against the available `table.column` names via a
lowercased dictionary, keeping the schema's original casing. -/

/-- A processed LLM response as used by the table-selection loop: either a
relevance boolean (per-table post-processors) or a list of table names
(batched post-processors). -/
inductive PyVal where
  | pyBool (b : Bool)
  | pyStrList (l : List String)
deriving DecidableEq, Repr

/-- Python truthiness of a processed response. -/
def pyTruthy : PyVal → Bool
  | .pyBool b => b
  | .pyStrList l => !l.isEmpty

/-- Python `sep.join(parts)`. -/
def pyJoin (sep : String) : List String → String
  | [] => ""
  | [x] => x
  | x :: xs => x ++ sep ++ pyJoin sep xs

/-- Result of `CoreTableSelector.__call__`: available tables, selected
tables, and the targets for which an intermediate step was recorded. -/
structure CoreTableSelOutcome where
  availableTables : Finset String
  selectedTables : Finset String
  processedTables : List String
deriving DecidableEq

/-- The per-target loop of `CoreTableSelector.__call__` (lines 145–195).
`respond t` collapses prompt-render / LLM-generate / parse / post-process
for target `t`; `.error` models the unguarded `ValueError` (empty LLM
response) or parse exception, which aborts the whole loop.  In batched mode
a truthy non-list processed response would make the later
`set(selected_tables)` call raise `TypeError`; that is modelled as an error
here.  `steps` records one entry per completed target. -/
def tableSelectorLoop (respond : String → Except String PyVal)
    (callForEachTable : Bool) :
    List String → List String → List String →
    Except String (List String × List String)
  | [], selected, steps => .ok (selected, steps)
  | t :: ts, selected, steps =>
    match respond t with
    | .error e => .error e
    | .ok pv =>
      if pyTruthy pv then
        if callForEachTable then
          tableSelectorLoop respond callForEachTable ts (selected ++ [t])
            (steps ++ [t])
        else
          match pv with
          | .pyStrList l =>
            tableSelectorLoop respond callForEachTable ts l (steps ++ [t])
          | .pyBool _ => .error "TypeError"
      else tableSelectorLoop respond callForEachTable ts selected (steps ++ [t])

/-- `CoreTableSelector.__call__` (lines 129–207): build the target list from
the mode, run the loop, then intersect the selected names with the usable
tables (a plain, case-sensitive set intersection). -/
def coreTableSelectorCall (respond : String → Except String PyVal)
    (callForEachTable : Bool) (descriptorTables : List String)
    (usableTables : List String) : Except String CoreTableSelOutcome :=
  let targets :=
    if callForEachTable then descriptorTables else [pyJoin "," usableTables]
  (tableSelectorLoop respond callForEachTable targets [] []).map
    (fun r =>
      { availableTables := usableTables.toFinset
        selectedTables := r.1.toFinset ∩ usableTables.toFinset
        processedTables := r.2 })

/-- Python `str.lower()` (ASCII). -/
def pyLower (s : String) : String := String.mk (s.data.map Char.toLower)

/-- The available `table.column` names of a column-selection run, from the
database descriptor (`column_selection/core.py` lines 219–223). -/
def availableColumnsOf (descriptor : List (String × List String)) : List String :=
  descriptor.flatMap (fun tc => tc.2.map (fun c => tc.1 ++ "." ++ c))

/-- The dict comprehension `{i.lower(): i for i in avialble_columns}` as an
association list; a later duplicate key overwrites an earlier one, so lookup
takes the last binding. -/
def lowerPairs (avail : List String) : List (String × String) :=
  avail.map (fun i => (pyLower i, i))

/-- Python dict lookup on an insertion-ordered association list with
last-binding-wins semantics. -/
def pyDictGet (m : List (String × String)) (k : String) : Option String :=
  (m.reverse.find? (fun p => p.1 == k)).map Prod.snd

/-- The case-insensitive filtering of raw selected column names against the
available names (`column_selection/core.py` lines 224–229): keep the
schema-cased available name for every raw name whose lowercase form is a
key, silently dropping the others. -/
def filterSelectedColumns (selectedRaw : List String) (avail : List String) :
    Finset String :=
  (selectedRaw.filterMap (fun c => pyDictGet (lowerPairs avail) (pyLower c))).toFinset

/-- Result of `CoreColumnSelector.__call__`. -/
structure CoreColSelOutcome where
  availableColumns : Finset String
  selectedColumns : Finset String
deriving DecidableEq

/-- The per-table loop of `CoreColumnSelector.__call__` (lines 172–217):
`respond t` collapses prompt / LLM / parse / post-process for table `t`
(the shipped post-processor always yields a list of strings); the raw
selected names are extended in order; a parse failure aborts the loop. -/
def columnSelectorLoop (respond : String → Except String (List String)) :
    List String → List String → Except String (List String)
  | [], selected => .ok selected
  | t :: ts, selected =>
    match respond t with
    | .error e => .error e
    | .ok l => columnSelectorLoop respond ts (selected ++ l)

/-- `CoreColumnSelector.__call__` (lines 164–238). -/
def coreColumnSelectorCall (respond : String → Except String (List String))
    (descriptor : List (String × List String)) :
    Except String CoreColSelOutcome :=
  (columnSelectorLoop respond (descriptor.map Prod.fst) []).map
    (fun selectedRaw =>
      { availableColumns := (availableColumnsOf descriptor).toFinset
        selectedColumns :=
          filterSelectedColumns selectedRaw (availableColumnsOf descriptor) })

theorem exceptMap_ok {ε α β : Type} (f : α → β) (x : Except ε α) (b : β)
    (h : x.map f = .ok b) : ∃ a, x = .ok a ∧ b = f a := by
  cases x with
  | error e => simp [Except.map] at h
  | ok a =>
    refine ⟨a, rfl, ?_⟩
    simp only [Except.map] at h
    cases h
    rfl

theorem pyDictGet_mem_of_some (avail : List String) (k v : String)
    (h : pyDictGet (lowerPairs avail) k = some v) : v ∈ avail := by
  simp only [pyDictGet, Option.map_eq_some'] at h
  obtain ⟨p, hp, hv⟩ := h
  have hmem := List.mem_of_find?_eq_some hp
  rw [List.mem_reverse] at hmem
  simp only [lowerPairs, List.mem_map] at hmem
  obtain ⟨i, hi, hpi⟩ := hmem
  rw [← hpi] at hv
  rw [← hv]
  exact hi

theorem pyDictGet_some_of_key (avail : List String) (k : String)
    (hkey : ∃ a ∈ avail, pyLower a = k) :
    ∃ v, pyDictGet (lowerPairs avail) k = some v ∧ pyLower v = k := by
  obtain ⟨a, ha, hk⟩ := hkey
  have hmem : (k, a) ∈ (lowerPairs avail).reverse := by
    rw [List.mem_reverse]
    simp only [lowerPairs, List.mem_map]
    exact ⟨a, ha, by rw [hk]⟩
  have hsome : ((lowerPairs avail).reverse.find?
      (fun p => p.1 == k)).isSome := by
    rw [List.find?_isSome]
    exact ⟨(k, a), hmem, by simp⟩
  obtain ⟨p, hp⟩ := Option.isSome_iff_exists.mp hsome
  have hpk : p.1 = k := by
    have := List.find?_some hp
    simpa using this
  have hpmem := List.mem_of_find?_eq_some hp
  rw [List.mem_reverse] at hpmem
  simp only [lowerPairs, List.mem_map] at hpmem
  obtain ⟨i, _, hpi⟩ := hpmem
  refine ⟨p.2, ?_, ?_⟩
  · simp [pyDictGet, hp]
  · rw [← hpi] at hpk ⊢
    exact hpk

/-- C5 (amended): every selection outcome satisfies selected ⊆ available for
both table and column selection; column selection matches raw LLM names
case-insensitively against the available names, preserves the schema's
original casing (the selected names are drawn from the available set), and
silently drops names that match nothing; table selection, however, matches
case-sensitively (a plain set intersection), so only exactly-cased names
survive (see the counterexample). -/
theorem c5_selection_subset_invariant
    (respond : String → Except String PyVal) (cfe : Bool)
    (descriptorTables usableTables : List String)
    (respondCols : String → Except String (List String))
    (descriptor : List (String × List String)) :
    (∀ res, coreTableSelectorCall respond cfe descriptorTables usableTables =
        .ok res → res.selectedTables ⊆ res.availableTables) ∧
    (∀ res, coreColumnSelectorCall respondCols descriptor = .ok res →
      res.selectedColumns ⊆ res.availableColumns) ∧
    (∀ raw avail a c, a ∈ avail → c ∈ raw → pyLower c = pyLower a →
      ∃ b ∈ filterSelectedColumns raw avail, pyLower b = pyLower c) ∧
    (∀ c raw avail, (∀ a ∈ avail, pyLower a ≠ pyLower c) →
      filterSelectedColumns (c :: raw) avail = filterSelectedColumns raw avail) := by
  refine ⟨?_, ?_, ?_, ?_⟩
  · intro res h
    obtain ⟨r, _, hres⟩ := exceptMap_ok _ _ _ h
    rw [hres]
    exact Finset.inter_subset_right
  · intro res h
    obtain ⟨r, _, hres⟩ := exceptMap_ok _ _ _ h
    rw [hres]
    intro x hx
    simp only [filterSelectedColumns, List.mem_toFinset, List.mem_filterMap] at hx
    obtain ⟨c, _, hc⟩ := hx
    simp only [List.mem_toFinset]
    exact pyDictGet_mem_of_some _ _ _ hc
  · intro raw avail a c ha hc hlow
    obtain ⟨v, hv, hvk⟩ := pyDictGet_some_of_key avail (pyLower c)
      ⟨a, ha, hlow.symm⟩
    refine ⟨v, ?_, hvk⟩
    simp only [filterSelectedColumns, List.mem_toFinset, List.mem_filterMap]
    exact ⟨c, hc, hv⟩
  · intro c raw avail hnone
    have hget : pyDictGet (lowerPairs avail) (pyLower c) = none := by
      simp only [pyDictGet, Option.map_eq_none']
      rw [List.find?_eq_none]
      intro p hp
      rw [List.mem_reverse] at hp
      simp only [lowerPairs, List.mem_map] at hp
      obtain ⟨i, hi, hpi⟩ := hp
      have := hnone i hi
      simp only [← hpi]
      simpa using this
    simp [filterSelectedColumns, List.filterMap_cons, hget]

/-- An LLM oracle whose processed batched response names a table in the
wrong case. -/
def lowerRespond : String → Except String PyVal :=
  fun _ => .ok (.pyStrList ["tablea"])

/-- Projection used to state selection counterexamples without needing
decidable equality on `Except`. -/
def exceptSelectedTables (x : Except String CoreTableSelOutcome) :
    Option (Finset String) :=
  match x with
  | .ok r => some r.selectedTables
  | .error _ => none

/-- C5 counterexample: in table selection a raw LLM name that matches an
available table only up to case (`"tablea"` vs `"TableA"`) is dropped by the
case-sensitive intersection, and the selection result is empty — under the
claimed case-insensitive matching it would have been `{"TableA"}`. -/
theorem c5_counterexample_table_case_sensitive :
    exceptSelectedTables
        (coreTableSelectorCall lowerRespond false [] ["TableA"]) = some ∅ ∧
    pyLower "tablea" = pyLower "TableA" ∧
    "tablea" ≠ "TableA" := by
  refine ⟨rfl, by decide, by decide⟩

/-- Witness for C5 at a concrete input: a raw name matching an available
column up to case yields a selected name of the same lowercase form. -/
theorem c5_selection_subset_invariant_witness :
    ∃ b ∈ filterSelectedColumns ["ORDERS.ID"] ["Orders.Id"],
      pyLower b = pyLower "ORDERS.ID" :=
  (c5_selection_subset_invariant lowerRespond false [] [] (fun _ => .ok []) []).2.2.1
    ["ORDERS.ID"] ["Orders.Id"] "Orders.Id" "ORDERS.ID" (by decide) (by decide)
    (by decide)

/-- An LLM oracle whose response for table `"TableA"` is malformed
(`ResponseFormatError`) and well-formed for every other table. -/
def respondFormatErr : String → Except String PyVal :=
  fun t => if t = "TableA" then .error "ResponseFormatError"
           else .ok (.pyBool true)

/-- C6 counterexample: in per-candidate mode a malformed response for the
first candidate aborts the entire selection — the call returns the error and
no result, so the sibling candidate `"TableB"` does not proceed, contrary to
the claim. -/
theorem c6_counterexample_sibling_abort :
    coreTableSelectorCall respondFormatErr true ["TableA", "TableB"]
      ["TableA", "TableB"] = .error "ResponseFormatError" := rfl

/-- C6 (amended): in per-candidate selection an unparseable LLM response for
one candidate propagates out of the whole `__call__`: the loop stops at the
failing candidate (later siblings are never consulted — the result does not
depend on them) and the selection returns no result, only the error. -/
theorem c6_per_candidate_parse_error_aborts
    (respond : String → Except String PyVal) (cfe : Bool) (t : String)
    (ts selected steps usableTables : List String) (e : String)
    (hresp : respond t = .error e) :
    tableSelectorLoop respond cfe (t :: ts) selected steps = .error e ∧
    coreTableSelectorCall respond true (t :: ts) usableTables = .error e := by
  constructor
  · simp [tableSelectorLoop, hresp]
  · simp [coreTableSelectorCall, tableSelectorLoop, hresp, Except.map]

/-- Witness for C6 at a concrete input. -/
theorem c6_per_candidate_parse_error_aborts_witness :
    tableSelectorLoop respondFormatErr true ["TableA", "TableB"] [] [] =
      .error "ResponseFormatError" :=
  (c6_per_candidate_parse_error_aborts respondFormatErr true "TableA"
    ["TableB"] [] [] [] "ResponseFormatError" rfl).1

/-! ## Pipeline orchestrator (`nl2sql/executors/linear_executor/core.py`)

After SQL generation, `CoreLinearExecutor.__call__` (lines 109–147) invokes
the eval-fix stage only when `core_eval_fix is not None` and the generated
query is truthy (non-`None` and non-empty); an exception from eval-fix is
caught and logged, keeping the pre-repair query and recording no eval-fix
step.  Finally, when the query is not `None`, it applies
`re.sub("```|sql", "", result_generated_query)` — removing every occurrence
of three backticks and of the literal substring `sql` — and assembles the
result. -/

/-- `re.sub("```|sql", "", ·)` on the character list: leftmost-first,
non-overlapping removal of the two alternatives. -/
def stripFenceChars : List Char → List Char
  | '`' :: '`' :: '`' :: rest => stripFenceChars rest
  | 's' :: 'q' :: 'l' :: rest => stripFenceChars rest
  | c :: rest => c :: stripFenceChars rest
  | [] => []

/-- The final query cleanup of `CoreLinearExecutor.__call__` (lines 132–135):
`re.sub("```|sql", "", query)`. -/
def cleanupQuery (s : String) : String := String.mk (stripFenceChars s.data)

/-- Whether the text contains an occurrence of three backticks or of the
substring `sql` — i.e. whether the cleanup regex can match anywhere. -/
def hasFenceTok : List Char → Bool
  | '`' :: '`' :: '`' :: _ => true
  | 's' :: 'q' :: 'l' :: _ => true
  | _ :: rest => hasFenceTok rest
  | [] => false

theorem stripFenceChars_eq_of_no_tok :
    ∀ cs, hasFenceTok cs = false → stripFenceChars cs = cs := by
  intro cs
  induction cs using stripFenceChars.induct with
  | case1 rest ih => intro h; simp [hasFenceTok] at h
  | case2 rest ih => intro h; simp [hasFenceTok] at h
  | case3 c rest h1 h2 ih =>
    intro h
    have hstep : stripFenceChars (c :: rest) = c :: stripFenceChars rest := by
      rw [stripFenceChars.eq_def]
      split
      · rename_i r heq
        injection heq with hc hr2
        exact (h1 r hc hr2).elim
      · rename_i r heq
        injection heq with hc hr2
        exact (h2 r hc hr2).elim
      · rename_i c2 r2 heq
        injection heq with hc hr2
        subst hc
        subst hr2
        rfl
      · rename_i heq
        simp at heq
    have htok : hasFenceTok rest = false := by
      rw [hasFenceTok.eq_def] at h
      split at h
      · exact absurd h (by simp)
      · exact absurd h (by simp)
      · rename_i c2 r2 heq
        injection heq with hc hr2
        rw [hr2]
        exact h
      · rename_i heq
        simp at heq
    rw [hstep, ih htok]
  | case4 => intro h; rfl

/-- Result assembled by the tail of `CoreLinearExecutor.__call__`: the final
(nullable) generated query and the tags of the recorded intermediate-step
groups, in order. -/
structure LinearExecResult where
  generatedQuery : Option String
  stepTags : List String
deriving DecidableEq, Repr

/-- The tail of `CoreLinearExecutor.__call__` (lines 109–147), from the point
where SQL generation has produced `genQuery`.  `priorStepTags` are the step
tags already recorded by the optional selection stages; `evalFixPresent` is
`core_eval_fix is not None`; `evalFixRun q` is the eval-fix call on query
`q`, returning the modified query or an exception (which line 124 catches,
keeping the pre-repair query).  Intermediate-step payloads are irrelevant to
the claims and only the tags are tracked. -/
def coreLinearExecutorTail (priorStepTags : List String)
    (genQuery : Option String) (evalFixPresent : Bool)
    (evalFixRun : String → Except String String) : LinearExecResult :=
  let steps1 := priorStepTags ++ ["sql_generation"]
  let r2 :=
    if evalFixPresent then
      match genQuery with
      | some q =>
        if q = "" then (genQuery, steps1)
        else
          match evalFixRun q with
          | .error _ => (genQuery, steps1)
          | .ok modified => (some modified, steps1 ++ ["eval_fix"])
      | none => (genQuery, steps1)
    else (genQuery, steps1)
  let finalQ :=
    match r2.1 with
    | none => none
    | some q => some (cleanupQuery q)
  { generatedQuery := finalQ, stepTags := r2.2 }

/-- C7 counterexample: the cleanup of `` ```sql SELECT 1``` `` is
`" SELECT 1"` (the space after the language tag survives), not exactly
`"SELECT 1"`; and query text that contains `sql` outside any fence is also
altered (`sqlite_master` becomes `ite_master`), so the post-processing does
not strip fence artifacts "and nothing else". -/
theorem c7_counterexample_fence_stripping :
    cleanupQuery "```sql SELECT 1```" = " SELECT 1" ∧
    cleanupQuery "```sql SELECT 1```" ≠ "SELECT 1" ∧
    cleanupQuery "SELECT * FROM sqlite_master" = "SELECT * FROM ite_master" ∧
    cleanupQuery "SELECT * FROM sqlite_master" ≠ "SELECT * FROM sqlite_master" := by
  refine ⟨rfl, by decide, rfl, by decide⟩

/-- C7 (amended): the final post-processing removes every occurrence of
three backticks and of the substring `sql` anywhere in the generated text;
on `` ```sql SELECT 1``` `` the output is `" SELECT 1"` (leading space
kept); text containing neither three backticks nor the substring `sql` is
left unchanged; and the orchestrator applies exactly this cleanup once to a
produced non-null query. -/
theorem c7_fence_stripping (s : String)
    (htok : hasFenceTok s.data = false) (tags : List String)
    (fix : String → Except String String) (q : String) :
    cleanupQuery s = s ∧
    cleanupQuery "```sql SELECT 1```" = " SELECT 1" ∧
    (coreLinearExecutorTail tags (some q) false fix).generatedQuery =
      some (cleanupQuery q) := by
  refine ⟨?_, rfl, ?_⟩
  · unfold cleanupQuery
    rw [stripFenceChars_eq_of_no_tok s.data htok]
  · simp [coreLinearExecutorTail]

/-- Witness for C7 at a concrete input. -/
theorem c7_fence_stripping_witness :
    cleanupQuery "SELECT 1" = "SELECT 1" :=
  (c7_fence_stripping "SELECT 1" (by decide) [] (fun _ => .error "x") "q").1

/-- A sample eval-fix stage that succeeds. -/
def okFixRun : String → Except String String := fun q => .ok (q ++ " FIXED")

/-- A sample eval-fix stage that raises. -/
def errFixRun : String → Except String String := fun _ => .error "boom"

/-- C10: the orchestrator invokes the repair stage only for a non-null,
non-empty generated query: when the query is null or empty the result does
not depend on the eval-fix stage at all (it is never invoked), no eval-fix
intermediate step is recorded, a null query is returned unchanged (the
code-fence normalization is skipped for null), and an empty query is
returned as the empty string. -/
theorem c10_repair_skipped_on_null_or_empty
    (priorStepTags : List String) (evalFixPresent : Bool)
    (evalFixRun evalFixRun' : String → Except String String)
    (hprior : "eval_fix" ∉ priorStepTags) :
    (coreLinearExecutorTail priorStepTags none evalFixPresent evalFixRun =
      coreLinearExecutorTail priorStepTags none evalFixPresent evalFixRun') ∧
    (coreLinearExecutorTail priorStepTags none evalFixPresent
      evalFixRun).generatedQuery = none ∧
    "eval_fix" ∉ (coreLinearExecutorTail priorStepTags none evalFixPresent
      evalFixRun).stepTags ∧
    (coreLinearExecutorTail priorStepTags (some "") evalFixPresent evalFixRun =
      coreLinearExecutorTail priorStepTags (some "") evalFixPresent evalFixRun') ∧
    (coreLinearExecutorTail priorStepTags (some "") evalFixPresent
      evalFixRun).generatedQuery = some "" ∧
    "eval_fix" ∉ (coreLinearExecutorTail priorStepTags (some "") evalFixPresent
      evalFixRun).stepTags := by
  have hsteps : "eval_fix" ∉ priorStepTags ++ ["sql_generation"] := by
    simp only [List.mem_append, List.mem_singleton]
    rintro (h | h)
    · exact hprior h
    · simp at h
  cases evalFixPresent <;>
    simp [coreLinearExecutorTail, cleanupQuery, stripFenceChars, hsteps]

/-- Witness for C10 at a concrete input: with a null generated query the
result is the same whether the eval-fix stage would succeed or raise. -/
theorem c10_repair_skipped_on_null_or_empty_witness :
    coreLinearExecutorTail ["table_selection"] none true okFixRun =
      coreLinearExecutorTail ["table_selection"] none true errFixRun :=
  (c10_repair_skipped_on_null_or_empty ["table_selection"] true okFixRun
    errFixRun (by decide)).1

/-! ## Entity selectors (`nl2sql/datasets/base.py`)

`EntitySet` is a pydantic model.  The `id_structure` field validator (lines
118–133) asserts, for each raw id: it is not `"*.*.*"`, it splits on `"."`
into exactly 3 parts, and each part is `"*"` or matches the Python regex
`^[a-zA-Z0-9_-]+$` (whose `$` also matches just before one trailing
newline).  A failed assert becomes a pydantic `ValidationError`.
`model_post_init` (lines 194–228) then expands the validated ids against the
dataset schema with an explicit stack: a `"*"` database/table/column part
pushes one id per corresponding schema key; a fully concrete id is kept iff
present in the schema and otherwise dropped with only a debug log line.  The
Lean loop carries fuel because the Python loop diverges if a schema key is
itself `"*"`; `none` models nontermination or the (unreachable for
validated ids) tuple-unpacking `ValueError`. -/

/-- The character class `[a-zA-Z0-9_-]`. -/
def allowedIdChar (c : Char) : Bool :=
  ('a' ≤ c && c ≤ 'z') || ('A' ≤ c && c ≤ 'Z') ||
  ('0' ≤ c && c ≤ '9') || c = '_' || c = '-'

/-- Python `str.split(".")` on the character list: no limit, empty pieces
kept (`"".split(".") == [""]`). -/
def pySplitDotChars : List Char → List (List Char)
  | [] => [[]]
  | '.' :: rest => [] :: pySplitDotChars rest
  | c :: rest =>
    match pySplitDotChars rest with
    | [] => [[c]]
    | g :: gs => (c :: g) :: gs

/-- Python `str.split(".")`. -/
def pySplitDot (s : String) : List String :=
  (pySplitDotChars s.data).map String.mk

/-- Python `re.match("^[a-zA-Z0-9_-]+$", p)` is non-`None`: a nonempty run
of allowed characters, where `$` also matches just before a single trailing
newline. -/
def reFullmatchIdPart (p : String) : Bool :=
  let cs := if p.data.getLast? = some '\n' then p.data.dropLast else p.data
  !cs.isEmpty && cs.all allowedIdChar

/-- One part of an id passes the validator. -/
def idPartOk (p : String) : Bool := p == "*" || reFullmatchIdPart p

/-- The assertions of `EntitySet.id_structure` for one raw id, in source
order; an error models the pydantic `ValidationError`. -/
def validateId (id1 : String) : Except String Unit :=
  if id1 = "*.*.*" then .error "ValidationError: fully wildcarded id"
  else if (pySplitDot id1).length ≠ 3 then
    .error "ValidationError: malformed entity id"
  else
    match (pySplitDot id1).find? (fun p => !idPartOk p) with
    | some _ => .error "ValidationError: malformed part"
    | none => .ok ()

/-- `EntitySet.id_structure` over the id list (first failing assert wins). -/
def idStructure : List String → Except String Unit
  | [] => .ok ()
  | id1 :: rest =>
    match validateId id1 with
    | .error e => .error e
    | .ok _ => idStructure rest

/-- Whether an `Except` is a normal return. -/
def exceptOk {ε α : Type} : Except ε α → Bool
  | .ok _ => true
  | .error _ => false

/-- Modelled from the spec claim's words: a raw selector is malformed when
it does not have exactly 3 dot-separated parts, or some part is neither
`"*"` nor composed solely of characters in `[a-zA-Z0-9_-]`. -/
def specMalformedSelector (id1 : String) : Bool :=
  decide ((pySplitDot id1).length ≠ 3) ||
  (pySplitDot id1).any
    (fun p => p != "*" && !(!p.data.isEmpty && p.data.all allowedIdChar))

/-- Modelled from the spec claim's words: constructing the selector set
raises iff some selector is malformed or equals `"*.*.*"`. -/
def specClaimRaises (ids : List String) : Bool :=
  ids.any (fun id1 => specMalformedSelector id1 || id1 == "*.*.*")

/-- A nonempty run of allowed characters. -/
def allowedRun (p : String) : Bool := !p.data.isEmpty && p.data.all allowedIdChar

/-- A nonempty run of allowed characters followed by one newline — also
accepted by the Python regex because of `$`. -/
def trailingNewlineRun (p : String) : Bool :=
  p.data.getLast? == some '\n' &&
  !p.data.dropLast.isEmpty && p.data.dropLast.all allowedIdChar

/-- The amended malformedness condition: as the claim's, except that a part
may also be an allowed run followed by a single trailing newline. -/
def amendedMalformedSelector (id1 : String) : Bool :=
  decide ((pySplitDot id1).length ≠ 3) ||
  (pySplitDot id1).any
    (fun p => p != "*" && !(allowedRun p || trailingNewlineRun p))

/-- The amended raising condition over a selector list. -/
def amendedRaises (ids : List String) : Bool :=
  ids.any (fun id1 => id1 == "*.*.*" || amendedMalformedSelector id1)

/-- C8 counterexample: the selector `"a.b.c\n"` is malformed in the claim's
sense (its third part contains a newline, which is outside `[a-zA-Z0-9_-]`),
yet the validator accepts it — Python's `$` matches before the trailing
newline — so `ValidationError` is not raised exactly when the claim says. -/
theorem c8_counterexample_trailing_newline :
    exceptOk (idStructure ["a.b.c\n"]) = true ∧
    specClaimRaises ["a.b.c\n"] = true := by
  refine ⟨rfl, by decide⟩

theorem reFullmatch_eq_runs (p : String) :
    reFullmatchIdPart p = (allowedRun p || trailingNewlineRun p) := by
  unfold reFullmatchIdPart allowedRun trailingNewlineRun
  rcases hlast : p.data.getLast? with _ | c
  · simp [hlast]
  · by_cases hc : c = '\n'
    · subst hc
      have hmem : '\n' ∈ p.data := by
        obtain ⟨h, hx⟩ := @List.mem_getLast?_eq_getLast Char p.data '\n' hlast
        rw [hx]
        exact List.getLast_mem h
      have hall : p.data.all allowedIdChar = false := by
        rcases hall : p.data.all allowedIdChar with _ | _
        · rfl
        · have := List.all_eq_true.mp hall '\n' hmem
          simp [allowedIdChar] at this
      simp [hlast, hall]
    · simp [hlast, hc]

theorem idPartOk_eq_amended (p : String) :
    (!idPartOk p) = (p != "*" && !(allowedRun p || trailingNewlineRun p)) := by
  unfold idPartOk
  rw [reFullmatch_eq_runs]
  cases h1 : p == "*" <;> cases h2 : allowedRun p <;>
    cases h3 : trailingNewlineRun p <;> simp [bne, h1, h2, h3]

theorem exceptOk_validateId (id1 : String) :
    exceptOk (validateId id1) = false ↔
      (id1 == "*.*.*" || amendedMalformedSelector id1) = true := by
  by_cases h1 : id1 = "*.*.*"
  · subst h1
    decide
  · have h1b : (id1 == "*.*.*") = false := by simp [h1]
    by_cases h2 : (pySplitDot id1).length = 3
    · rcases hf : (pySplitDot id1).find? (fun p => !idPartOk p) with _ | bad
      · have hL : validateId id1 = .ok () := by
          unfold validateId
          rw [if_neg h1, if_neg (by omega : ¬(pySplitDot id1).length ≠ 3), hf]
        have hany : (pySplitDot id1).any
            (fun p => p != "*" && !(allowedRun p || trailingNewlineRun p)) = false := by
          rw [List.any_eq_false]
          intro p hp
          rw [← idPartOk_eq_amended]
          have := List.find?_eq_none.mp hf p hp
          simpa using this
        have hR : amendedMalformedSelector id1 = false := by
          unfold amendedMalformedSelector
          rw [hany]
          simp [h2]
        rw [hL, hR, h1b]
        simp [exceptOk]
      · have hL : exceptOk (validateId id1) = false := by
          unfold validateId
          rw [if_neg h1, if_neg (by omega : ¬(pySplitDot id1).length ≠ 3), hf]
          rfl
        have hany : (pySplitDot id1).any
            (fun p => p != "*" && !(allowedRun p || trailingNewlineRun p)) = true := by
          rw [List.any_eq_true]
          refine ⟨bad, List.mem_of_find?_eq_some hf, ?_⟩
          have hpred := List.find?_some hf
          rw [← idPartOk_eq_amended]
          simpa using hpred
        have hR : amendedMalformedSelector id1 = true := by
          unfold amendedMalformedSelector
          rw [hany]
          simp
        rw [hL, hR]
        simp
    · have hL : exceptOk (validateId id1) = false := by
        unfold validateId
        rw [if_neg h1, if_pos (by omega : (pySplitDot id1).length ≠ 3)]
        rfl
      have hR : amendedMalformedSelector id1 = true := by
        unfold amendedMalformedSelector
        have hd : decide ((pySplitDot id1).length ≠ 3) = true := by simp [h2]
        rw [hd]
        rfl
      rw [hL, hR]
      simp

/-- C8 (amended): constructing an entity-selector set raises
`ValidationError` exactly when some raw selector equals `"*.*.*"` or is
malformed, where a part is well-formed when it is `"*"` or a nonempty run
of `[a-zA-Z0-9_-]` characters *optionally followed by one trailing newline*
(Python's `$` accepts it); in particular `"*.*.* "` raises and a well-formed
selector list raises nothing. -/
theorem c8_entityset_validation (ids : List String) :
    (exceptOk (idStructure ids) = false ↔ amendedRaises ids = true) ∧
    exceptOk (idStructure ["*.*.* "]) = false ∧
    exceptOk (idStructure ["db1.orders.id", "db1.orders.*"]) = true := by
  refine ⟨?_, by decide, rfl⟩
  induction ids with
  | nil => simp [idStructure, exceptOk, amendedRaises]
  | cons id1 rest ih =>
    unfold idStructure amendedRaises
    rcases hv : validateId id1 with e | u
    · have := (exceptOk_validateId id1).mp (by rw [hv]; rfl)
      simp [exceptOk, List.any_cons, this]
    · have hok : exceptOk (validateId id1) = true := by rw [hv]; rfl
      have hnot : (id1 == "*.*.*" || amendedMalformedSelector id1) = false := by
        rcases hcond : (id1 == "*.*.*" || amendedMalformedSelector id1) with _ | _
        · rfl
        · exact absurd ((exceptOk_validateId id1).mpr hcond) (by simp [hok])
      unfold amendedRaises at ih
      simp [List.any_cons, hnot, ih]

/-- Witness for C8 at a concrete input: a malformed selector list raises. -/
theorem c8_entityset_validation_witness :
    exceptOk (idStructure ["*.*.* "]) = false :=
  (c8_entityset_validation ["*.*.* "]).2.1

/-- A Python table schema: column name ↦ column type, insertion-ordered. -/
abbrev PyTableSchema := List (String × String)

/-- A Python database schema: table name ↦ table schema. -/
abbrev PyDatabaseSchema := List (String × PyTableSchema)

/-- A Python dataset schema: database name ↦ database schema
(`BaseDatasetSchema`). -/
abbrev PyDatasetSchema := List (String × PyDatabaseSchema)

/-- Python dict lookup (`d.get(k)`); keys are unique in a Python dict, so
the first match is the binding. -/
def pyGet {β : Type} (m : List (String × β)) (k : String) : Option β :=
  (m.find? (fun p => p.1 == k)).map Prod.snd

/-- `self.dataset_schema.keys()`. -/
def schemaDbNames (sc : PyDatasetSchema) : List String := sc.map Prod.fst

/-- `self.dataset_schema.get(database, {}).keys()`. -/
def schemaTabNames (sc : PyDatasetSchema) (db : String) : List String :=
  ((pyGet sc db).getD []).map Prod.fst

/-- `self.dataset_schema.get(database, {}).get(table, {}).keys()`. -/
def schemaColNames (sc : PyDatasetSchema) (db tab : String) : List String :=
  ((pyGet ((pyGet sc db).getD []) tab).getD []).map Prod.fst

/-- The short-circuit membership test of `model_post_init` lines 220–224:
`database in keys and table in keys and column in keys`. -/
def schemaHasId (sc : PyDatasetSchema) (db tab col : String) : Bool :=
  decide (db ∈ schemaDbNames sc) && decide (tab ∈ schemaTabNames sc db) &&
  decide (col ∈ schemaColNames sc db tab)

/-- `f"{db}.{tab}.{col}"`. -/
def mkId (db tab col : String) : String := db ++ "." ++ tab ++ "." ++ col

/-- The worklist loop of `EntitySet.model_post_init` (lines 197–228).  The
Lean stack list is the Python stack reversed: its head is the element
`stack.pop()` removes, and `stack.extend(xs)` becomes `xs.reverse ++ stack`.
`none` covers fuel exhaustion (the Python loop diverges when a schema key is
itself `"*"`) and the tuple-unpacking `ValueError` on an id without exactly
3 parts (unreachable for validated ids). -/
def entityExpandLoop (sc : PyDatasetSchema) :
    Nat → List String → List String → Option (List String)
  | _, [], resolved => some resolved
  | 0, _ :: _, _ => none
  | fuel + 1, currId :: stack, resolved =>
    match pySplitDot currId with
    | [database, table, column] =>
      if database = "*" then
        entityExpandLoop sc fuel
          (((schemaDbNames sc).map (fun db => mkId db table column)).reverse ++
            stack) resolved
      else if table = "*" then
        entityExpandLoop sc fuel
          (((schemaTabNames sc database).map
            (fun tab => mkId database tab column)).reverse ++ stack) resolved
      else if column = "*" then
        entityExpandLoop sc fuel
          (((schemaColNames sc database table).map
            (fun col => mkId database table col)).reverse ++ stack) resolved
      else if schemaHasId sc database table column then
        entityExpandLoop sc fuel stack (resolved ++ [currId])
      else
        entityExpandLoop sc fuel stack resolved
    | _ => none

/-- `list(set(self.ids))`: deduplication (iteration order of a Python set is
unspecified; first occurrences are kept here, which is irrelevant to the
claims, all stated on single-selector lists or up to permutation). -/
def pyListSet (ids : List String) : List String := ids.eraseDups

/-- `EntitySet.model_post_init`: expand the ids against the schema. -/
def modelPostInitExpand (ids : List String) (sc : PyDatasetSchema)
    (fuel : Nat) : Option (List String) :=
  entityExpandLoop sc fuel (pyListSet ids) []

/-- The schema of scenario B: one database `db` with one table `orders`
having columns `id` and `total`. -/
def scenarioSchema : PyDatasetSchema :=
  [("db", [("orders", [("id", "INTEGER"), ("total", "REAL")])])]

theorem pyGet_some_mem {β : Type} (m : List (String × β)) (k : String)
    (v : β) (h : pyGet m k = some v) : k ∈ m.map Prod.fst := by
  simp only [pyGet, Option.map_eq_some'] at h
  obtain ⟨p, hp, _⟩ := h
  have hmem := List.mem_of_find?_eq_some hp
  have hpk := List.find?_some hp
  simp only [beq_iff_eq] at hpk
  rw [← hpk]
  exact List.mem_map_of_mem Prod.fst hmem

theorem schemaHasId_of_col_mem (sc : PyDatasetSchema) (d t c : String)
    (hc : c ∈ schemaColNames sc d t) : schemaHasId sc d t c = true := by
  unfold schemaColNames at hc
  rcases hdb : pyGet sc d with _ | dbsc
  · rw [hdb] at hc
    simp [pyGet] at hc
  · rw [hdb] at hc
    simp only [Option.getD_some] at hc
    rcases htab : pyGet dbsc t with _ | tsc
    · rw [htab] at hc
      simp at hc
    · rw [htab] at hc
      simp only [Option.getD_some] at hc
      have hd : d ∈ schemaDbNames sc := pyGet_some_mem sc d dbsc hdb
      have ht : t ∈ schemaTabNames sc d := by
        unfold schemaTabNames
        rw [hdb]
        exact pyGet_some_mem dbsc t tsc htab
      have hc2 : c ∈ schemaColNames sc d t := by
        unfold schemaColNames
        rw [hdb]
        simp only [Option.getD_some]
        rw [htab]
        simpa using hc
      unfold schemaHasId
      simp [hd, ht, hc2]

theorem entityExpandLoop_concrete (sc : PyDatasetSchema) :
    ∀ (L resolved : List String) (fuel : Nat), L.length ≤ fuel →
      (∀ x ∈ L, ∃ d t c, pySplitDot x = [d, t, c] ∧ d ≠ "*" ∧ t ≠ "*" ∧
        c ≠ "*" ∧ schemaHasId sc d t c = true) →
      entityExpandLoop sc fuel L resolved = some (resolved ++ L) := by
  intro L
  induction L with
  | nil =>
    intro resolved fuel _ _
    cases fuel <;> simp [entityExpandLoop]
  | cons x xs ih =>
    intro resolved fuel hfuel hall
    match fuel with
    | 0 => simp at hfuel
    | f + 1 =>
      obtain ⟨d, t, c, hsplit, hd, ht, hc, hhas⟩ := hall x (List.mem_cons_self x xs)
      have hrest : ∀ y ∈ xs, ∃ d t c, pySplitDot y = [d, t, c] ∧ d ≠ "*" ∧
          t ≠ "*" ∧ c ≠ "*" ∧ schemaHasId sc d t c = true :=
        fun y hy => hall y (List.mem_cons_of_mem x hy)
      have hfuel2 : xs.length ≤ f := by
        simp only [List.length_cons] at hfuel
        omega
      simp only [entityExpandLoop, hsplit, if_neg hd, if_neg ht, if_neg hc,
        hhas, if_pos]
      rw [ih (resolved ++ [x]) f hfuel2 hrest]
      simp

/-- C9: entity expansion against a schema.  (i) Scenario B: over the schema
`{orders: {id, total}}` the selector `db.orders.*` expands to exactly
`{db.orders.id, db.orders.total}`.  (ii) An already-concrete, wildcard-free
selector expands, without raising, to exactly itself when present in the
schema and to the empty set otherwise (in particular an absent selector is
silently dropped).  (iii) A selector whose database is absent and whose
table part is the wildcard is silently dropped.  (iv) In general, a
column-wildcard selector over a concrete database and table expands to
exactly the set of that table's columns (hypotheses state that the names
involved are dot-free, via their split forms, and not `"*"`). -/
theorem c9_entity_expansion
    (sc : PyDatasetSchema) (id1 id2 : String) (d t c d2 c2 : String)
    (fuel : Nat)
    (hsplit : pySplitDot id1 = [d, t, c])
    (hd : d ≠ "*") (ht : t ≠ "*") (hc : c ≠ "*")
    (hsplit2 : pySplitDot id2 = [d2, "*", c2]) (hd2 : d2 ≠ "*")
    (habsent : pyGet sc d2 = none)
    (dw tw : String) (hdw : dw ≠ "*") (htw : tw ≠ "*")
    (hsplitw : pySplitDot (mkId dw tw "*") = [dw, tw, "*"])
    (hsplitCols : ∀ col ∈ schemaColNames sc dw tw,
      pySplitDot (mkId dw tw col) = [dw, tw, col])
    (hnostar : ∀ col ∈ schemaColNames sc dw tw, col ≠ "*")
    (hfuelw : (schemaColNames sc dw tw).length ≤ fuel) :
    (modelPostInitExpand ["db.orders.*"] scenarioSchema 10 =
      some ["db.orders.total", "db.orders.id"] ∧
      ["db.orders.total", "db.orders.id"].Perm
        ["db.orders.id", "db.orders.total"]) ∧
    modelPostInitExpand [id1] sc (fuel + 1) =
      some (if schemaHasId sc d t c then [id1] else []) ∧
    modelPostInitExpand [id2] sc (fuel + 1) = some [] ∧
    (modelPostInitExpand [mkId dw tw "*"] sc (fuel + 1)).map List.toFinset =
      some ((schemaColNames sc dw tw).map
        (fun col => mkId dw tw col)).toFinset := by
  have hsingle : ∀ z : String, pyListSet [z] = [z] := fun z => rfl
  refine ⟨⟨by decide, by decide⟩, ?_, ?_, ?_⟩
  · unfold modelPostInitExpand
    rw [hsingle id1]
    by_cases hh : schemaHasId sc d t c = true
    · simp only [entityExpandLoop, hsplit, if_neg hd, if_neg ht, if_neg hc,
        hh, if_pos]
      cases fuel <;> simp [entityExpandLoop]
    · have hh2 : schemaHasId sc d t c = false := by
        rcases hb : schemaHasId sc d t c with _ | _
        · rfl
        · exact absurd hb hh
      simp only [entityExpandLoop, hsplit, if_neg hd, if_neg ht, if_neg hc,
        hh2]
      cases fuel <;> simp [entityExpandLoop, hh2]
  · unfold modelPostInitExpand
    rw [hsingle id2]
    have hempty : schemaTabNames sc d2 = [] := by
      unfold schemaTabNames
      rw [habsent]
      rfl
    simp only [entityExpandLoop, hsplit2, if_neg hd2, if_pos rfl, hempty]
    cases fuel <;> simp [entityExpandLoop]
  · unfold modelPostInitExpand
    rw [hsingle (mkId dw tw "*")]
    have hall : ∀ x ∈ ((schemaColNames sc dw tw).map
        (fun col => mkId dw tw col)).reverse ++ ([] : List String),
        ∃ d t c, pySplitDot x = [d, t, c] ∧ d ≠ "*" ∧ t ≠ "*" ∧ c ≠ "*" ∧
          schemaHasId sc d t c = true := by
      intro x hx
      simp only [List.append_nil, List.mem_reverse, List.mem_map] at hx
      obtain ⟨col, hcol, rfl⟩ := hx
      exact ⟨dw, tw, col, hsplitCols col hcol, hdw, htw, hnostar col hcol,
        schemaHasId_of_col_mem sc dw tw col hcol⟩
    have hlen : (((schemaColNames sc dw tw).map
        (fun col => mkId dw tw col)).reverse ++ ([] : List String)).length ≤
        fuel := by
      simpa using hfuelw
    simp only [entityExpandLoop, hsplitw, if_neg hdw, if_neg htw, if_pos rfl]
    rw [entityExpandLoop_concrete sc _ [] fuel hlen hall]
    simp [List.toFinset_reverse]

/-- Witness for C9 at concrete inputs: a present concrete selector expands
to itself, an absent concrete selector and an absent-database wildcard are
dropped, and `db.orders.*` expands to the two columns. -/
theorem c9_entity_expansion_witness :
    modelPostInitExpand ["db.orders.id"] scenarioSchema 3 =
      some (if schemaHasId scenarioSchema "db" "orders" "id"
        then ["db.orders.id"] else []) ∧
    modelPostInitExpand ["nosuchdb.*.id"] scenarioSchema 3 = some [] :=
  ⟨(c9_entity_expansion scenarioSchema "db.orders.id" "nosuchdb.*.id" "db"
      "orders" "id" "nosuchdb" "id" 2 (by decide) (by decide) (by decide)
      (by decide) (by decide) (by decide) (by decide) "db" "orders"
      (by decide) (by decide) (by decide) (by decide) (by decide)
      (by decide)).2.1,
   (c9_entity_expansion scenarioSchema "db.orders.id" "nosuchdb.*.id" "db"
      "orders" "id" "nosuchdb" "id" 2 (by decide) (by decide) (by decide)
      (by decide) (by decide) (by decide) (by decide) "db" "orders"
      (by decide) (by decide) (by decide) (by decide) (by decide)
      (by decide)).2.2.1⟩

end NL2SQL
